import Mathlib

/-!
Verification of the prayer-time derivation core of `src/App.vue`.

Modelling conventions (shallow embedding of the TypeScript/JavaScript code):

* A JavaScript string is modelled as a `List Char` (`JStr`).
* A JavaScript `Date` holding a definite point in time is modelled as an
  `Int` counting milliseconds of local civil time; an *Invalid Date*
  (produced by `setHours(NaN, ...)`) is modelled as `none : Option Int`.
  Days are taken to be a fixed 86 400 000 ms (the code performs no
  time-zone or DST adjustment).
* `Date.prototype.setHours(h, m, 0, 0)` on a date of "today" normalises
  arbitrary integer arguments to `todayMidnight + h*3600000 + m*60000`,
  which is exactly how it is modelled here.
* `Date.prototype.setDate(d)` keeps the time of day and moves the date to
  day-of-month `d` of the month the date lies in, normalising overflow
  into adjacent months.  For an instant lying on today's date (the only
  case the code reaches with in-range times) this equals
  `monthStart + (d-1)*dayMs + timeOfDay`, which is how `jsSetDate` models
  it.  The calendar context (`CalCtx`) carries today's month layout.
* `Number(s)` is modelled on the fragment exercised by the code: the empty
  string gives `0`, an unsigned decimal numeral gives its value, and every
  other string gives NaN (`none`).  (JS additionally accepts signs,
  fractions, whitespace and hex, none of which appear in schedule data.)
-/

namespace PrayerApp

abbrev JStr := List Char

def dayMs : Int := 86400000
def hourMs : Int := 3600000
def minuteMs : Int := 60000

/-- Is `ch` a decimal digit (for the `Number(...)` model)? -/
def isDigitCh (ch : Char) : Bool :=
  decide (48 ≤ ch.toNat) && decide (ch.toNat ≤ 57)

/-- Model of JS `Number(s)` on the fragment relevant to `HH:MM` parsing:
`""` ↦ `0`, unsigned decimal numerals ↦ their value, anything else ↦ NaN
(`none`). -/
def jsNumber (s : JStr) : Option Int :=
  if s = [] then some 0
  else if s.all isDigitCh then
    some (Int.ofNat (s.foldl (fun acc ch => acc * 10 + (ch.toNat - 48)) 0))
  else none

/-- Model of JS `s.split(":")` on a character-list string. -/
def splitOnColon : JStr → List JStr
  | [] => [[]]
  | ch :: rest =>
    if ch = ':' then [] :: splitOnColon rest
    else
      match splitOnColon rest with
      | [] => [[ch]]
      | seg :: segs => (ch :: seg) :: segs

/-- `const [hours, minutes] = timeStr.split(":").map(Number)` — the first two
segments converted by `Number`; a missing second segment is `undefined`,
which `Number`/`setHours` turn into NaN (`none`). -/
def parseHM (s : JStr) : Option Int × Option Int :=
  match splitOnColon s with
  | [] => (none, none)
  | [a] => (jsNumber a, none)
  | a :: b :: _ => (jsNumber a, jsNumber b)

/-- Calendar context of "today": the instant (ms) of 00:00 on the first day
of today's month, today's 1-based day of month, the number of days in
today's month and in the previous month.  `new Date()` (with time cleared)
is `todayMidnight`. -/
structure CalCtx where
  monthStart : Int
  dayOfMonth : Int
  daysInMonth : Int
  prevMonthDays : Int
deriving DecidableEq

def CalCtx.todayMidnight (c : CalCtx) : Int :=
  c.monthStart + (c.dayOfMonth - 1) * dayMs

/-- Day of month of `now + 1 day` (what `tomorrow.getDate()` returns after
`tomorrow.setDate(tomorrow.getDate() + 1)`). -/
def CalCtx.tomorrowDay (c : CalCtx) : Int :=
  if c.dayOfMonth < c.daysInMonth then c.dayOfMonth + 1 else 1

/-- Day of month of `now - 1 day` (what `yesterday.getDate()` returns after
`yesterday.setDate(yesterday.getDate() - 1)`). -/
def CalCtx.yesterdayDay (c : CalCtx) : Int :=
  if 1 < c.dayOfMonth then c.dayOfMonth - 1 else c.prevMonthDays

/-- Well-formedness of a calendar context. -/
def CalCtx.ok (c : CalCtx) : Bool :=
  decide (1 ≤ c.dayOfMonth) && decide (c.dayOfMonth ≤ c.daysInMonth) &&
  decide (28 ≤ c.daysInMonth) && decide (c.daysInMonth ≤ 31) &&
  decide (28 ≤ c.prevMonthDays) && decide (c.prevMonthDays ≤ 31)

/-- `now` lies on today's calendar day. -/
def nowInDay (c : CalCtx) (now : Int) : Prop :=
  c.todayMidnight ≤ now ∧ now < c.todayMidnight + dayMs

instance (c : CalCtx) (now : Int) : Decidable (nowInDay c now) := by
  unfold nowInDay; infer_instance

/-- `App.vue` lines 115–120, `prayerTimeToDate`: split on `:`, convert with
`Number`, `setHours(hours, minutes, 0, 0)` on today's date.  `none` models
the JS *Invalid Date* produced when a component is NaN. -/
def prayerTimeToDate (timeStr : JStr) (c : CalCtx) : Option Int :=
  match parseHM timeStr with
  | (some h, some m) => some (c.todayMidnight + h * hourMs + m * minuteMs)
  | _ => none

/-- The six schedule fields of the fetched `timings` record. -/
structure PrayerTimings where
  Fajr : JStr
  Sunrise : JStr
  Duhur : JStr
  Asr : JStr
  Maqhrib : JStr
  Isha : JStr
deriving DecidableEq

/-- The fixed `prayerOrder` scan (line 54) paired with the field accessed
for each name. -/
def timingsList (t : PrayerTimings) : List (JStr × JStr) :=
  [("Fajr".data, t.Fajr), ("Sunrise".data, t.Sunrise),
   ("Duhur".data, t.Duhur), ("Asr".data, t.Asr),
   ("Maqhrib".data, t.Maqhrib), ("Isha".data, t.Isha)]

/-- The `{name, time, timeString}` object the resolvers build. -/
structure ResolvedReference where
  name : JStr
  time : Option Int
  timeString : JStr
deriving DecidableEq

/-- JS `prayerTime > now`: false when `prayerTime` is an Invalid Date
(NaN comparisons are false). -/
def jsGt (time : Option Int) (now : Int) : Bool :=
  match time with
  | some x => decide (now < x)
  | none => false

/-- JS `prayerTime <= now`: false when `prayerTime` is an Invalid Date. -/
def jsLe (time : Option Int) (now : Int) : Bool :=
  match time with
  | some x => decide (x ≤ now)
  | none => false

/-- `date.setDate(d)` for a date lying on today's calendar day (as every
in-range parsed time does); an Invalid Date stays invalid. -/
def jsSetDate (time : Option Int) (c : CalCtx) (d : Int) : Option Int :=
  time.map (fun x => c.monthStart + (d - 1) * dayMs + (x - c.todayMidnight))

/-- The `for (const prayer of prayerOrder)` loop of `nextPrayer`
(lines 128–140): return the first entry whose instant compares `> now`. -/
def nextPrayerScan : List (JStr × JStr) → CalCtx → Int → Option ResolvedReference
  | [], _, _ => none
  | p :: rest, c, now =>
    if jsGt (prayerTimeToDate p.2 c) now then
      some ⟨p.1, prayerTimeToDate p.2 c, p.2⟩
    else nextPrayerScan rest c now

/-- `App.vue` lines 123–153, the `nextPrayer` computed value: `null` without
schedule data; otherwise the scan, falling back to Fajr with
`fajrTime.setDate(tomorrow.getDate())` (lines 143–152). -/
def nextPrayer (pd : Option PrayerTimings) (c : CalCtx) (now : Int) :
    Option ResolvedReference :=
  match pd with
  | none => none
  | some t =>
    match nextPrayerScan (timingsList t) c now with
    | some r => some r
    | none =>
      some ⟨"Fajr".data, jsSetDate (prayerTimeToDate t.Fajr c) c c.tomorrowDay,
            t.Fajr⟩

/-- The loop of `previousPrayer` (lines 162–176): keep the last entry whose
instant compares `<= now`, `break` at the first that does not. -/
def previousPrayerScan :
    List (JStr × JStr) → CalCtx → Int → Option ResolvedReference →
    Option ResolvedReference
  | [], _, _, lastPrayer => lastPrayer
  | p :: rest, c, now, lastPrayer =>
    if jsLe (prayerTimeToDate p.2 c) now then
      previousPrayerScan rest c now (some ⟨p.1, prayerTimeToDate p.2 c, p.2⟩)
    else lastPrayer

/-- `App.vue` lines 156–193, the `previousPrayer` computed value: the scan,
falling back to Isha with `ishaTime.setDate(yesterday.getDate())`
(lines 179–190). -/
def previousPrayer (pd : Option PrayerTimings) (c : CalCtx) (now : Int) :
    Option ResolvedReference :=
  match pd with
  | none => none
  | some t =>
    match previousPrayerScan (timingsList t) c now none with
    | some r => some r
    | none =>
      some ⟨"Isha".data, jsSetDate (prayerTimeToDate t.Isha c) c c.yesterdayDay,
            t.Isha⟩

/-- The `{hours, minutes, seconds, totalMs}` object of the duration
computeds (lines 202–206 / 217–221). -/
structure Duration where
  hours : Int
  minutes : Int
  seconds : Int
  totalMs : Int
deriving DecidableEq

/-- Decomposition of a (non-negative) millisecond difference exactly as in
lines 202–206. -/
def durationOf (diff : Int) : Duration :=
  { hours := diff / (1000 * 60 * 60)
    minutes := diff % (1000 * 60 * 60) / (1000 * 60)
    seconds := diff % (1000 * 60) / 1000
    totalMs := diff }

/-- The duration computation of `timeRemaining` (lines 199–206) with the
resolved next-prayer instant abstracted as `target`. -/
def remainingUntil (target now : Int) : Option Duration :=
  if target - now < 0 then none else some (durationOf (target - now))

/-- The duration computation of `timePassed` (lines 213–221) with the
resolved previous-prayer instant abstracted as `target`. -/
def elapsedSince (target now : Int) : Option Duration :=
  if now - target < 0 then none else some (durationOf (now - target))

/-- `App.vue` lines 196–207, the `timeRemaining` computed value.  For an
Invalid Date stored in the reference (impossible with in-range times) the
model reports `none`; JS would produce an object of NaN fields, which no
downstream comparison ever satisfies, so it is observationally `none` for
the notification logic. -/
def timeRemaining (pd : Option PrayerTimings) (c : CalCtx) (now : Int) :
    Option Duration :=
  match nextPrayer pd c now with
  | none => none
  | some r =>
    match r.time with
    | none => none
    | some x => remainingUntil x now

/-- `App.vue` lines 210–222, the `timePassed` computed value. -/
def timePassed (pd : Option PrayerTimings) (c : CalCtx) (now : Int) :
    Option Duration :=
  match previousPrayer pd c now with
  | none => none
  | some r =>
    match r.time with
    | none => none
    | some x => elapsedSince x now

/-- `App.vue` lines 225–234, the `shouldShowNextPrayer` computed value, with
the two pieces of component state passed explicitly. -/
def shouldShowNextPrayer (isManualToggle showNext : Bool)
    (pd : Option PrayerTimings) (c : CalCtx) (now : Int) : Bool :=
  if isManualToggle then showNext
  else
    match timePassed pd c now with
    | none => true
    | some d => decide (35 * 60 * 1000 < d.totalMs)

/-- The two refs driving the display mode: `isManualToggle` (line 48) and
`showNextPrayer` (line 49). -/
structure ViewState where
  isManualToggle : Bool
  showNext : Bool
deriving DecidableEq

/-- Initial values of lines 48–49: not manually toggled, showing next. -/
def initialViewState : ViewState := ⟨false, true⟩

/-- `App.vue` lines 255–258, `togglePrayerMode`. -/
def togglePrayerMode (s : ViewState) : ViewState :=
  ⟨true, !s.showNext⟩

/-- `n` successive invocations of `togglePrayerMode`. -/
def toggleN : Nat → ViewState → ViewState
  | 0, s => s
  | n + 1, s => togglePrayerMode (toggleN n s)

/-- `App.vue` lines 268–307, `checkNotification`, as a function from the
pre-tick `notificationShown` key to the post-tick key together with the
notification request (title, body) emitted, if any. -/
def checkNotification (pd : Option PrayerTimings) (c : CalCtx) (now : Int)
    (notificationShown : JStr) : JStr × Option (JStr × JStr) :=
  match timeRemaining pd c now, nextPrayer pd c now with
  | some rem, some np =>
    if rem.totalMs ≤ 5 * 60 * 1000 ∧ 1 * 60 * 1000 < rem.totalMs then
      if notificationShown ≠ np.name ++ "-5min".data then
        (np.name ++ "-5min".data,
         some (np.name ++ " prayer in 5 minutes!".data,
               "Time: ".data ++ np.timeString))
      else (notificationShown, none)
    else if rem.totalMs ≤ 1 * 60 * 1000 ∧ 0 < rem.totalMs then
      if notificationShown ≠ np.name ++ "-1min".data then
        (np.name ++ "-1min".data,
         some (np.name ++ " prayer in 1 minute!".data,
               "Time: ".data ++ np.timeString))
      else (notificationShown, none)
    else if rem.totalMs ≤ 0 then
      if notificationShown ≠ np.name ++ "-now".data then
        (np.name ++ "-now".data,
         some (np.name ++ " prayer time!".data,
               "Time: ".data ++ np.timeString))
      else (notificationShown, none)
    else (notificationShown, none)
  | _, _ => (notificationShown, none)

/-- A run of the once-per-second tick handler (lines 347–352) over a list of
clock readings: threads the `notificationShown` key and collects the
notifications emitted, in order. -/
def runNotifications (pd : Option PrayerTimings) (c : CalCtx) :
    List Int → JStr → JStr × List (JStr × JStr)
  | [], k => (k, [])
  | n :: rest, k =>
    ((runNotifications pd c rest (checkNotification pd c n k).1).1,
     (checkNotification pd c n k).2.toList ++
       (runNotifications pd c rest (checkNotification pd c n k).1).2)

/-- A tick at which the remaining time is absent or above the 5-minute
threshold (no notification branch applies). -/
def farTick (pd : Option PrayerTimings) (c : CalCtx) (n : Int) : Bool :=
  match timeRemaining pd c n with
  | none => true
  | some d => decide (300000 < d.totalMs)

/-- Modelled from the spec: §4.2 `findNext` — the first entry in the fixed
order whose today-instant is strictly greater than `now`, otherwise Fajr's
instant reconstructed on the following calendar day (one full day later). -/
def specNext (t : PrayerTimings) (c : CalCtx) (now : Int) : ResolvedReference :=
  match (timingsList t).find? (fun p => jsGt (prayerTimeToDate p.2 c) now) with
  | some p => ⟨p.1, prayerTimeToDate p.2 c, p.2⟩
  | none =>
    ⟨"Fajr".data, (prayerTimeToDate t.Fajr c).map (fun x => x + dayMs), t.Fajr⟩

/-- Modelled from the spec: §4.2 `findPrevious` — the last entry in the fixed
order whose today-instant is `≤ now`, otherwise Isha's instant reconstructed
on the previous calendar day (one full day earlier). -/
def specPrevious (t : PrayerTimings) (c : CalCtx) (now : Int) :
    ResolvedReference :=
  match ((timingsList t).filter
      (fun p => jsLe (prayerTimeToDate p.2 c) now)).getLast? with
  | some p => ⟨p.1, prayerTimeToDate p.2 c, p.2⟩
  | none =>
    ⟨"Isha".data, (prayerTimeToDate t.Isha c).map (fun x => x - dayMs), t.Isha⟩

/-- Modelled from the spec: §4.5's threshold mapping, checked in the spec's
priority order, first match wins. -/
def specKeyOf (name : JStr) (remaining : Int) : Option JStr :=
  if remaining ≤ 0 then some (name ++ "-now".data)
  else if remaining ≤ 60000 then some (name ++ "-1min".data)
  else if remaining ≤ 300000 then some (name ++ "-5min".data)
  else none

/-- A schedule entry that is a well-formed `HH:MM` time: both segments
numeric, hours 0–23, minutes 0–59. -/
def validEntry (s : JStr) : Bool :=
  match parseHM s with
  | (some h, some m) =>
    decide (0 ≤ h) && decide (h < 24) && decide (0 ≤ m) && decide (m < 60)
  | _ => false

/-- All six schedule entries are well-formed `HH:MM` times. -/
def validTimings (t : PrayerTimings) : Bool :=
  (timingsList t).all (fun p => validEntry p.2)

/-- The six instants of the schedule, in scan order. -/
def instantsOf (t : PrayerTimings) (c : CalCtx) : List (Option Int) :=
  (timingsList t).map (fun p => prayerTimeToDate p.2 c)

/-- Every element is a defined instant and `≥ x`. -/
def allLeB (x : Int) : List (Option Int) → Bool
  | [] => true
  | some y :: rest => decide (x ≤ y) && allLeB x rest
  | none :: _ => false

/-- Every element is a defined instant and the list is non-decreasing. -/
def sortedLeB : List (Option Int) → Bool
  | [] => true
  | none :: _ => false
  | some x :: rest => allLeB x rest && sortedLeB rest

/-- Every element is a defined instant and `> x`. -/
def allLtB (x : Int) : List (Option Int) → Bool
  | [] => true
  | some y :: rest => decide (x < y) && allLtB x rest
  | none :: _ => false

/-- Every element is a defined instant and the list is strictly increasing. -/
def sortedLtB : List (Option Int) → Bool
  | [] => true
  | none :: _ => false
  | some x :: rest => allLtB x rest && sortedLtB rest

/-- The decimal digit character for `k ≤ 9`. -/
def digitChar (k : Nat) : Char := Char.ofNat (48 + k)

/-- The two-digit decimal numeral of `n ≤ 99`. -/
def twoDigits (n : Nat) : JStr := [digitChar (n / 10), digitChar (n % 10)]

/-- The §8 scenario schedule. -/
def sampleTimings : PrayerTimings :=
  ⟨"05:00".data, "06:20".data, "12:15".data, "15:45".data, "18:30".data,
   "20:00".data⟩

/-- A mid-month day (the 15th of a 31-day month starting at instant 0). -/
def sampleCtx : CalCtx := ⟨0, 15, 31, 31⟩

/-- The last day of a 31-day month starting at instant 0. -/
def monthEndCtx : CalCtx := ⟨0, 31, 31, 31⟩

/-- The first day of a 28-day month starting at instant 0, after a 31-day
month. -/
def monthStartCtx : CalCtx := ⟨0, 1, 28, 31⟩

/-! ### Basic facts about the comparison and validity helpers -/

theorem jsGt_eq_true_iff (o : Option Int) (now : Int) :
    jsGt o now = true ↔ ∃ x, o = some x ∧ now < x := by
  cases o <;> simp [jsGt]

theorem jsLe_eq_true_iff (o : Option Int) (now : Int) :
    jsLe o now = true ↔ ∃ x, o = some x ∧ x ≤ now := by
  cases o <;> simp [jsLe]

theorem jsLe_of_not_jsGt {x now : Int} (h : jsGt (some x) now = false) :
    jsLe (some x) now = true := by
  simp [jsGt] at h; simp [jsLe]; omega

theorem jsGt_of_not_jsLe {x now : Int} (h : jsLe (some x) now = false) :
    jsGt (some x) now = true := by
  simp [jsLe] at h; simp [jsGt]; omega

theorem validEntry_spec {s : JStr} (h : validEntry s = true) :
    ∃ hh mm : Int, parseHM s = (some hh, some mm) ∧
      0 ≤ hh ∧ hh < 24 ∧ 0 ≤ mm ∧ mm < 60 := by
  unfold validEntry at h
  rcases hp : parseHM s with ⟨h1, m1⟩
  rw [hp] at h
  cases h1 with
  | none => simp at h
  | some hh =>
    cases m1 with
    | none => simp at h
    | some mm =>
      simp only [Bool.and_eq_true, decide_eq_true_eq] at h
      exact ⟨hh, mm, rfl, h.1.1.1, h.1.1.2, h.1.2, h.2⟩

theorem valid_prayerTimeToDate {s : JStr} (c : CalCtx) (h : validEntry s = true) :
    ∃ v, prayerTimeToDate s c = some v ∧
      c.todayMidnight ≤ v ∧ v < c.todayMidnight + dayMs := by
  obtain ⟨hh, mm, hp, h0, h24, m0, m60⟩ := validEntry_spec h
  refine ⟨c.todayMidnight + hh * hourMs + mm * minuteMs, ?_, ?_, ?_⟩
  · simp [prayerTimeToDate, hp]
  · simp only [hourMs, minuteMs]; omega
  · simp only [hourMs, minuteMs, dayMs]; omega

theorem validTimings_mem {t : PrayerTimings} (hv : validTimings t = true)
    {p : JStr × JStr} (hp : p ∈ timingsList t) : validEntry p.2 = true := by
  unfold validTimings at hv
  exact List.all_eq_true.mp hv p hp

theorem timingsList_ne_nil (t : PrayerTimings) : timingsList t ≠ [] := by
  simp [timingsList]

theorem timingsList_same_name {t : PrayerTimings} {n s1 s2 : JStr}
    (h1 : (n, s1) ∈ timingsList t) (h2 : (n, s2) ∈ timingsList t) :
    s1 = s2 := by
  simp only [timingsList, List.mem_cons, List.not_mem_nil, or_false,
    Prod.mk.injEq] at h1 h2
  rcases h1 with ⟨hn1, hs1⟩ | ⟨hn1, hs1⟩ | ⟨hn1, hs1⟩ | ⟨hn1, hs1⟩ |
      ⟨hn1, hs1⟩ | ⟨hn1, hs1⟩ <;>
    rcases h2 with ⟨hn2, hs2⟩ | ⟨hn2, hs2⟩ | ⟨hn2, hs2⟩ | ⟨hn2, hs2⟩ |
      ⟨hn2, hs2⟩ | ⟨hn2, hs2⟩ <;>
    subst hn1 <;>
    first
      | exact hs1.trans hs2.symm
      | exact absurd hn2 (by decide)

/-! ### Characterisation of the two resolver scans -/

theorem nextPrayerScan_eq_find (l : List (JStr × JStr)) (c : CalCtx) (now : Int) :
    nextPrayerScan l c now =
      (l.find? (fun p => jsGt (prayerTimeToDate p.2 c) now)).map
        (fun p => ⟨p.1, prayerTimeToDate p.2 c, p.2⟩) := by
  induction l with
  | nil => rfl
  | cons p rest ih =>
    by_cases h : jsGt (prayerTimeToDate p.2 c) now = true
    · rw [nextPrayerScan, if_pos h,
        @List.find?_cons_of_pos _ (fun q => jsGt (prayerTimeToDate q.2 c) now)
          p rest h]
      rfl
    · rw [nextPrayerScan, if_neg (by simp [h]),
        @List.find?_cons_of_neg _ (fun q => jsGt (prayerTimeToDate q.2 c) now)
          p rest (by simp [h]), ih]

theorem previousPrayerScan_some_acc (l : List (JStr × JStr)) (c : CalCtx)
    (now : Int) (a : ResolvedReference) :
    previousPrayerScan l c now (some a) ≠ none := by
  induction l generalizing a with
  | nil => simp [previousPrayerScan]
  | cons p rest ih =>
    rw [previousPrayerScan]
    by_cases h : jsLe (prayerTimeToDate p.2 c) now = true
    · rw [if_pos h]; exact ih _
    · rw [if_neg (by simp [h])]; simp

theorem previousPrayerScan_none_head {p : JStr × JStr} {rest : List (JStr × JStr)}
    {c : CalCtx} {now : Int}
    (h : previousPrayerScan (p :: rest) c now none = none) :
    jsLe (prayerTimeToDate p.2 c) now = false := by
  by_contra hc
  rw [previousPrayerScan, if_pos (by simpa using hc)] at h
  exact previousPrayerScan_some_acc _ _ _ _ h

theorem previousPrayerScan_mem (l : List (JStr × JStr)) (c : CalCtx) (now : Int) :
    ∀ acc r, previousPrayerScan l c now acc = some r →
      acc = some r ∨ ∃ p ∈ l, r = ⟨p.1, prayerTimeToDate p.2 c, p.2⟩ ∧
        jsLe (prayerTimeToDate p.2 c) now = true := by
  induction l with
  | nil => intro acc r h; exact Or.inl h
  | cons p rest ih =>
    intro acc r h
    rw [previousPrayerScan] at h
    by_cases hc : jsLe (prayerTimeToDate p.2 c) now = true
    · rw [if_pos hc] at h
      rcases ih _ _ h with hacc | ⟨q, hq, hr, hle⟩
      · cases hacc
        exact Or.inr ⟨p, by simp, rfl, hc⟩
      · exact Or.inr ⟨q, by simp [hq], hr, hle⟩
    · rw [if_neg (by simp [hc])] at h
      exact Or.inl h

theorem previousPrayerScan_all_le (l : List (JStr × JStr)) (c : CalCtx) (now : Int)
    (hall : ∀ p ∈ l, jsLe (prayerTimeToDate p.2 c) now = true) (hne : l ≠ []) :
    ∀ acc, previousPrayerScan l c now acc =
      l.getLast?.map (fun q => ⟨q.1, prayerTimeToDate q.2 c, q.2⟩) := by
  induction l with
  | nil => exact absurd rfl hne
  | cons p rest ih =>
    intro acc
    rw [previousPrayerScan, if_pos (hall p (by simp))]
    cases rest with
    | nil => rfl
    | cons q qs =>
      rw [ih (fun x hx => hall x (by simp [hx])) (by simp) _,
        List.getLast?_cons_cons]

/-! ### Sortedness bookkeeping -/

theorem allLeB_mem {x : Int} {vs : List (Option Int)} (h : allLeB x vs = true)
    {o : Option Int} (ho : o ∈ vs) : ∃ y, o = some y ∧ x ≤ y := by
  induction vs with
  | nil => simp at ho
  | cons v rest ih =>
    cases v with
    | none => simp [allLeB] at h
    | some y =>
      rw [allLeB, Bool.and_eq_true, decide_eq_true_eq] at h
      rcases List.mem_cons.mp ho with rfl | hm
      · exact ⟨y, rfl, h.1⟩
      · exact ih h.2 hm

theorem allLtB_mem {x : Int} {vs : List (Option Int)} (h : allLtB x vs = true)
    {o : Option Int} (ho : o ∈ vs) : ∃ y, o = some y ∧ x < y := by
  induction vs with
  | nil => simp at ho
  | cons v rest ih =>
    cases v with
    | none => simp [allLtB] at h
    | some y =>
      rw [allLtB, Bool.and_eq_true, decide_eq_true_eq] at h
      rcases List.mem_cons.mp ho with rfl | hm
      · exact ⟨y, rfl, h.1⟩
      · exact ih h.2 hm

theorem sortedLeB_cons {o : Option Int} {vs : List (Option Int)}
    (h : sortedLeB (o :: vs) = true) :
    ∃ x, o = some x ∧ allLeB x vs = true ∧ sortedLeB vs = true := by
  cases o with
  | none => simp [sortedLeB] at h
  | some x =>
    rw [sortedLeB, Bool.and_eq_true] at h
    exact ⟨x, rfl, h.1, h.2⟩

theorem sortedLtB_cons {o : Option Int} {vs : List (Option Int)}
    (h : sortedLtB (o :: vs) = true) :
    ∃ x, o = some x ∧ allLtB x vs = true ∧ sortedLtB vs = true := by
  cases o with
  | none => simp [sortedLtB] at h
  | some x =>
    rw [sortedLtB, Bool.and_eq_true] at h
    exact ⟨x, rfl, h.1, h.2⟩

theorem allLeB_of_allLtB {x : Int} {vs : List (Option Int)}
    (h : allLtB x vs = true) : allLeB x vs = true := by
  induction vs with
  | nil => rfl
  | cons v rest ih =>
    cases v with
    | none => simp [allLtB] at h
    | some y =>
      rw [allLtB, Bool.and_eq_true, decide_eq_true_eq] at h
      rw [allLeB, Bool.and_eq_true, decide_eq_true_eq]
      exact ⟨le_of_lt h.1, ih h.2⟩

theorem sortedLeB_of_sortedLtB {vs : List (Option Int)}
    (h : sortedLtB vs = true) : sortedLeB vs = true := by
  induction vs with
  | nil => rfl
  | cons v rest ih =>
    obtain ⟨x, rfl, ha, hs⟩ := sortedLtB_cons h
    rw [sortedLeB, Bool.and_eq_true]
    exact ⟨allLeB_of_allLtB ha, ih hs⟩

theorem sortedLtB_split {vs1 vs2 : List (Option Int)} {v : Option Int}
    (h : sortedLtB (vs1 ++ v :: vs2) = true) :
    ∃ xv, v = some xv ∧ (∀ o ∈ vs1, ∃ y, o = some y ∧ y < xv) ∧
      (∀ o ∈ vs2, ∃ y, o = some y ∧ xv < y) := by
  induction vs1 with
  | nil =>
    obtain ⟨xv, rfl, ha, _⟩ := sortedLtB_cons h
    exact ⟨xv, rfl, by simp, fun o ho => allLtB_mem ha ho⟩
  | cons u vs1 ih =>
    obtain ⟨xu, rfl, ha, hs⟩ := sortedLtB_cons h
    obtain ⟨xv, rfl, h1, h2⟩ := ih hs
    refine ⟨xv, rfl, ?_, h2⟩
    intro o ho
    rcases List.mem_cons.mp ho with rfl | hm
    · obtain ⟨y, hy, hlt⟩ := allLtB_mem ha
        (show (some xv : Option Int) ∈ vs1 ++ some xv :: vs2 by
          exact List.mem_append_right _ (List.mem_cons_self _ _))
      injection hy with hy2
      exact ⟨xu, rfl, by omega⟩
    · exact h1 o hm

/-- The previous-prayer loop, on a schedule whose instants are all defined
and non-decreasing, returns the last entry whose instant is `≤ now`
(falling back to the accumulator when there is none). -/
theorem previousPrayerScan_filter (l : List (JStr × JStr)) (c : CalCtx)
    (now : Int)
    (hs : sortedLeB (l.map (fun p => prayerTimeToDate p.2 c)) = true) :
    ∀ acc, previousPrayerScan l c now acc =
      match (l.filter (fun p => jsLe (prayerTimeToDate p.2 c) now)).getLast? with
      | some q => some ⟨q.1, prayerTimeToDate q.2 c, q.2⟩
      | none => acc := by
  induction l with
  | nil => intro acc; rfl
  | cons p rest ih =>
    intro acc
    rw [List.map_cons] at hs
    obtain ⟨x, hx, ha, hsrest⟩ := sortedLeB_cons hs
    by_cases hc : jsLe (prayerTimeToDate p.2 c) now = true
    · rw [previousPrayerScan, if_pos hc,
        @List.filter_cons_of_pos _ (fun q => jsLe (prayerTimeToDate q.2 c) now)
          p rest hc, ih hsrest]
      cases hfr : rest.filter (fun p => jsLe (prayerTimeToDate p.2 c) now) with
      | nil => rfl
      | cons q qs =>
        rw [List.getLast?_cons_cons]
        cases h2 : (q :: qs).getLast? with
        | none => exact absurd (List.getLast?_eq_none_iff.mp h2) (by simp)
        | some z => rfl
    · rw [previousPrayerScan, if_neg (by simp [hc]),
        @List.filter_cons_of_neg _ (fun q => jsLe (prayerTimeToDate q.2 c) now)
          p rest (by simp [hc])]
      have hrest : rest.filter (fun p => jsLe (prayerTimeToDate p.2 c) now) = [] := by
        rw [List.filter_eq_nil_iff]
        intro q hq
        obtain ⟨y, hy, hxy⟩ := allLeB_mem ha
          (List.mem_map_of_mem (fun p => prayerTimeToDate p.2 c) hq)
        rw [hx] at hc
        simp only [jsLe, decide_eq_true_eq] at hc
        simp only [hy, jsLe, Bool.not_eq_true, decide_eq_false_iff_not]
        omega
      rw [hrest]
      rfl

/-! ### Decimal numerals and the absence of parse validation -/

theorem digitChar_ne_colon {k : Nat} (hk : k ≤ 9) : ¬(digitChar k = ':') := by
  interval_cases k <;> decide

theorem isDigitCh_digitChar {k : Nat} (hk : k ≤ 9) :
    isDigitCh (digitChar k) = true := by
  interval_cases k <;> decide

theorem toNat_digitChar {k : Nat} (hk : k ≤ 9) :
    (digitChar k).toNat = 48 + k := by
  interval_cases k <;> decide

theorem splitOnColon_twoDigits (h m : Nat) (hh : h ≤ 99) (hm : m ≤ 99) :
    splitOnColon (twoDigits h ++ ':' :: twoDigits m) =
      [twoDigits h, twoDigits m] := by
  have h1 := digitChar_ne_colon (show h / 10 ≤ 9 by omega)
  have h2 := digitChar_ne_colon (show h % 10 ≤ 9 by omega)
  have h3 := digitChar_ne_colon (show m / 10 ≤ 9 by omega)
  have h4 := digitChar_ne_colon (show m % 10 ≤ 9 by omega)
  simp [twoDigits, splitOnColon, h1, h2, h3, h4]

theorem jsNumber_twoDigits (n : Nat) (hn : n ≤ 99) :
    jsNumber (twoDigits n) = some (n : Int) := by
  have d1 := isDigitCh_digitChar (show n / 10 ≤ 9 by omega)
  have d2 := isDigitCh_digitChar (show n % 10 ≤ 9 by omega)
  have t1 := toNat_digitChar (show n / 10 ≤ 9 by omega)
  have t2 := toNat_digitChar (show n % 10 ≤ 9 by omega)
  have hval : (twoDigits n).foldl (fun acc ch => acc * 10 + (ch.toNat - 48)) 0
      = n := by
    simp only [twoDigits, List.foldl_cons, List.foldl_nil, t1, t2]
    omega
  rw [jsNumber, if_neg (by simp [twoDigits]),
    if_pos (by simp [twoDigits, d1, d2]), hval]
  rfl

theorem parseHM_twoDigits (h m : Nat) (hh : h ≤ 99) (hm : m ≤ 99) :
    parseHM (twoDigits h ++ ':' :: twoDigits m) =
      (some (h : Int), some (m : Int)) := by
  unfold parseHM
  rw [splitOnColon_twoDigits h m hh hm]
  simp only [jsNumber_twoDigits h hh, jsNumber_twoDigits m hm]

/-! ### Per-tick behaviour of the notification check -/

@[simp] theorem totalMs_durationOf (d : Int) : (durationOf d).totalMs = d := rfl

theorem timeRemaining_of_nextPrayer {pd : Option PrayerTimings} {c : CalCtx}
    {n : Int} {name tstr : JStr} {target : Int}
    (hn : nextPrayer pd c n = some ⟨name, some target, tstr⟩)
    (hpos : 0 ≤ target - n) :
    timeRemaining pd c n = some (durationOf (target - n)) := by
  unfold timeRemaining
  rw [hn]
  simp only [remainingUntil, if_neg (by omega : ¬(target - n < 0))]

theorem checkNotification_eq {pd : Option PrayerTimings} {c : CalCtx} {now : Int}
    {rem : Duration} {np : ResolvedReference}
    (hrem : timeRemaining pd c now = some rem)
    (hnp : nextPrayer pd c now = some np) (k : JStr) :
    checkNotification pd c now k =
      (if rem.totalMs ≤ 5 * 60 * 1000 ∧ 1 * 60 * 1000 < rem.totalMs then
        if k ≠ np.name ++ "-5min".data then
          (np.name ++ "-5min".data,
           some (np.name ++ " prayer in 5 minutes!".data,
                 "Time: ".data ++ np.timeString))
        else (k, none)
      else if rem.totalMs ≤ 1 * 60 * 1000 ∧ 0 < rem.totalMs then
        if k ≠ np.name ++ "-1min".data then
          (np.name ++ "-1min".data,
           some (np.name ++ " prayer in 1 minute!".data,
                 "Time: ".data ++ np.timeString))
        else (k, none)
      else if rem.totalMs ≤ 0 then
        if k ≠ np.name ++ "-now".data then
          (np.name ++ "-now".data,
           some (np.name ++ " prayer time!".data,
                 "Time: ".data ++ np.timeString))
        else (k, none)
      else (k, none)) := by
  unfold checkNotification
  rw [hrem, hnp]

theorem checkNotification_noRem {pd : Option PrayerTimings} {c : CalCtx}
    {now : Int} (hrem : timeRemaining pd c now = none) (k : JStr) :
    checkNotification pd c now k = (k, none) := by
  unfold checkNotification
  rw [hrem]

theorem checkNotification_far {pd : Option PrayerTimings} {c : CalCtx} {n : Int}
    (h : farTick pd c n = true) (k : JStr) :
    checkNotification pd c n k = (k, none) := by
  unfold farTick at h
  cases hrem : timeRemaining pd c n with
  | none => exact checkNotification_noRem hrem k
  | some d =>
    rw [hrem] at h
    simp only [decide_eq_true_eq] at h
    cases hnp : nextPrayer pd c n with
    | none =>
      unfold checkNotification
      rw [hrem, hnp]
    | some np =>
      rw [checkNotification_eq hrem hnp k, if_neg (by omega),
        if_neg (by omega), if_neg (by omega)]

theorem checkNotification_pre {pd : Option PrayerTimings} {c : CalCtx} {n : Int}
    {name tstr : JStr} {target : Int}
    (hn : nextPrayer pd c n = some ⟨name, some target, tstr⟩)
    (hfar : 300000 < target - n) (k : JStr) :
    checkNotification pd c n k = (k, none) := by
  apply checkNotification_far _ k
  unfold farTick
  rw [timeRemaining_of_nextPrayer hn (by omega)]
  simp only [totalMs_durationOf, decide_eq_true_eq]
  omega

theorem checkNotification_window5 {pd : Option PrayerTimings} {c : CalCtx}
    {n : Int} {name tstr : JStr} {target : Int}
    (hn : nextPrayer pd c n = some ⟨name, some target, tstr⟩)
    (h5 : 60000 < target - n ∧ target - n ≤ 300000) (k : JStr) :
    checkNotification pd c n k =
      if k ≠ name ++ "-5min".data then
        (name ++ "-5min".data,
         some (name ++ " prayer in 5 minutes!".data, "Time: ".data ++ tstr))
      else (k, none) := by
  rw [checkNotification_eq (timeRemaining_of_nextPrayer hn (by omega)) hn k,
    if_pos (by simp only [totalMs_durationOf]; omega)]

theorem checkNotification_window1 {pd : Option PrayerTimings} {c : CalCtx}
    {n : Int} {name tstr : JStr} {target : Int}
    (hn : nextPrayer pd c n = some ⟨name, some target, tstr⟩)
    (h1 : 0 < target - n ∧ target - n ≤ 60000) (k : JStr) :
    checkNotification pd c n k =
      if k ≠ name ++ "-1min".data then
        (name ++ "-1min".data,
         some (name ++ " prayer in 1 minute!".data, "Time: ".data ++ tstr))
      else (k, none) := by
  rw [checkNotification_eq (timeRemaining_of_nextPrayer hn (by omega)) hn k,
    if_neg (by simp only [totalMs_durationOf]; omega),
    if_pos (by simp only [totalMs_durationOf]; omega)]

/-! ### Runs of the tick handler -/

theorem runNotifications_append (pd : Option PrayerTimings) (c : CalCtx)
    (a b : List Int) (k : JStr) :
    runNotifications pd c (a ++ b) k =
      ((runNotifications pd c b (runNotifications pd c a k).1).1,
       (runNotifications pd c a k).2 ++
         (runNotifications pd c b (runNotifications pd c a k).1).2) := by
  induction a generalizing k with
  | nil => simp [runNotifications]
  | cons n rest ih =>
    simp only [List.cons_append, runNotifications, List.append_eq]
    rw [ih]
    simp [List.append_assoc]

theorem runNotifications_noop (pd : Option PrayerTimings) (c : CalCtx)
    (nows : List Int) (k : JStr)
    (h : ∀ n ∈ nows, checkNotification pd c n k = (k, none)) :
    runNotifications pd c nows k = (k, []) := by
  induction nows with
  | nil => rfl
  | cons n rest ih =>
    have hn := h n (by simp)
    simp only [runNotifications, hn, ih (fun x hx => h x (by simp [hx])),
      Option.toList_none, List.nil_append]

theorem runNotifications_phase (pd : Option PrayerTimings) (c : CalCtx)
    (nows : List Int) (key : JStr) (msg : JStr × JStr) (k0 : JStr)
    (hstep : ∀ n ∈ nows, ∀ k, checkNotification pd c n k =
      if k ≠ key then (key, some msg) else (k, none))
    (hne : nows ≠ []) (hk0 : ¬(k0 = key)) :
    runNotifications pd c nows k0 = (key, [msg]) := by
  cases nows with
  | nil => exact absurd rfl hne
  | cons n rest =>
    have h1 := hstep n (by simp) k0
    rw [if_pos hk0] at h1
    have hrest : runNotifications pd c rest key = (key, []) := by
      apply runNotifications_noop
      intro x hx
      have := hstep x (by simp [hx]) key
      rwa [if_neg (by simp)] at this
    simp only [runNotifications, h1, hrest, Option.toList_some,
      List.singleton_append]

/-! ### Facts about the resolvers on valid schedules -/

theorem nextPrayerScan_some_facts {t : PrayerTimings} {c : CalCtx} {now : Int}
    {r : ResolvedReference}
    (h : nextPrayerScan (timingsList t) c now = some r) :
    ∃ p ∈ timingsList t, r = ⟨p.1, prayerTimeToDate p.2 c, p.2⟩ ∧
      jsGt (prayerTimeToDate p.2 c) now = true := by
  rw [nextPrayerScan_eq_find] at h
  cases hf : (timingsList t).find? (fun p => jsGt (prayerTimeToDate p.2 c) now) with
  | none => rw [hf] at h; simp at h
  | some p =>
    rw [hf] at h
    have hmem := List.mem_of_find?_eq_some hf
    have hpred := List.find?_some hf
    cases h
    exact ⟨p, hmem, rfl, hpred⟩

theorem nextPrayerScan_none_facts {t : PrayerTimings} {c : CalCtx} {now : Int}
    (h : nextPrayerScan (timingsList t) c now = none) :
    ∀ p ∈ timingsList t, jsGt (prayerTimeToDate p.2 c) now = false := by
  rw [nextPrayerScan_eq_find] at h
  intro p hp
  cases hf : (timingsList t).find? (fun p => jsGt (prayerTimeToDate p.2 c) now) with
  | some q => rw [hf] at h; simp at h
  | none =>
    have := List.find?_eq_none.mp hf p hp
    simpa using this

theorem valid_jsLe_of_not_jsGt {t : PrayerTimings} {c : CalCtx} {now : Int}
    (hv : validTimings t = true) {p : JStr × JStr} (hp : p ∈ timingsList t)
    (h : jsGt (prayerTimeToDate p.2 c) now = false) :
    jsLe (prayerTimeToDate p.2 c) now = true := by
  obtain ⟨v, hvp, _, _⟩ := valid_prayerTimeToDate c (validTimings_mem hv hp)
  rw [hvp] at h ⊢
  exact jsLe_of_not_jsGt h

theorem fajr_mem (t : PrayerTimings) : ("Fajr".data, t.Fajr) ∈ timingsList t := by
  simp [timingsList]

theorem isha_mem (t : PrayerTimings) : ("Isha".data, t.Isha) ∈ timingsList t := by
  simp [timingsList]

/-- On a valid schedule with a well-formed calendar context and `now` inside
today, a defined remaining duration is strictly positive: at the exact
prayer instant the resolver has already moved on to the following prayer,
and the month-end fallback instant lies in the past (yielding no duration
at all). -/
theorem timeRemaining_pos {t : PrayerTimings} {c : CalCtx} {now : Int}
    {d : Duration} (hv : validTimings t = true) (hok : CalCtx.ok c = true)
    (hday : nowInDay c now)
    (h : timeRemaining (some t) c now = some d) : 0 < d.totalMs := by
  obtain ⟨hday1, hday2⟩ := hday
  cases hscan : nextPrayerScan (timingsList t) c now with
  | some r =>
    obtain ⟨p, hp, hr, hgt⟩ := nextPrayerScan_some_facts hscan
    obtain ⟨x, hx, hlt⟩ := (jsGt_eq_true_iff _ _).mp hgt
    have hnp : nextPrayer (some t) c now = some r := by
      simp only [nextPrayer, hscan]
    unfold timeRemaining at h
    rw [hnp, hr] at h
    simp only [hx] at h
    rw [remainingUntil, if_neg (by omega)] at h
    cases h
    simp only [totalMs_durationOf]
    omega
  | none =>
    obtain ⟨v, hvp, hv1, hv2⟩ :=
      valid_prayerTimeToDate c (validTimings_mem hv (fajr_mem t))
    have hnp : nextPrayer (some t) c now =
        some ⟨"Fajr".data, jsSetDate (prayerTimeToDate t.Fajr c) c c.tomorrowDay,
              t.Fajr⟩ := by
      simp only [nextPrayer, hscan]
    unfold timeRemaining at h
    rw [hnp] at h
    rw [jsSetDate, hvp] at h
    simp only [Option.map_some'] at h
    simp only [CalCtx.ok, Bool.and_eq_true, decide_eq_true_eq] at hok
    by_cases hEnd : c.dayOfMonth < c.daysInMonth
    · rw [CalCtx.tomorrowDay, if_pos hEnd] at h
      rw [remainingUntil, if_neg (by
        simp only [CalCtx.todayMidnight, dayMs] at hday1 hday2 hv1 hv2 ⊢
        omega)] at h
      cases h
      simp only [totalMs_durationOf, CalCtx.todayMidnight, dayMs] at hday2 hv1 ⊢
      omega
    · rw [CalCtx.tomorrowDay, if_neg hEnd] at h
      rw [remainingUntil, if_pos (by
        simp only [CalCtx.todayMidnight, dayMs] at hday1 hday2 hv1 hv2 ⊢
        omega)] at h
      exact absurd h (by simp)

/-- A full boundary-crossing run: quiet approach ticks, at least one tick in
the 5-minute window, at least one tick in the 1-minute window, then ticks at
which no threshold matches any more (e.g. past the instant, when the
resolver already reports the following prayer).  Exactly two notifications
are emitted, whatever the number of ticks inside each window. -/
theorem runNotifications_crossing {pd : Option PrayerTimings} {c : CalCtx}
    {name tstr : JStr} {target : Int} {k0 : JStr} {pre w5 w1 post : List Int}
    (hnext : ∀ n ∈ pre ++ (w5 ++ w1),
      nextPrayer pd c n = some ⟨name, some target, tstr⟩)
    (hpre : ∀ n ∈ pre, 300000 < target - n)
    (h5 : ∀ n ∈ w5, 60000 < target - n ∧ target - n ≤ 300000)
    (h1 : ∀ n ∈ w1, 0 < target - n ∧ target - n ≤ 60000)
    (hpost : ∀ n ∈ post, farTick pd c n = true)
    (hw5 : w5 ≠ []) (hw1 : w1 ≠ [])
    (hk0 : ¬(k0 = name ++ "-5min".data)) :
    runNotifications pd c (pre ++ (w5 ++ (w1 ++ post))) k0 =
      (name ++ "-1min".data,
       [(name ++ " prayer in 5 minutes!".data, "Time: ".data ++ tstr),
        (name ++ " prayer in 1 minute!".data, "Time: ".data ++ tstr)]) := by
  have hkeys : ¬(name ++ "-5min".data = name ++ "-1min".data) := by
    intro hcontra
    exact absurd (List.append_cancel_left hcontra) (by decide)
  have hApre : runNotifications pd c pre k0 = (k0, []) :=
    runNotifications_noop _ _ _ _ (fun n hn =>
      checkNotification_pre (hnext n (List.mem_append_left _ hn)) (hpre n hn) k0)
  have hA5 : runNotifications pd c w5 k0 =
      (name ++ "-5min".data,
       [(name ++ " prayer in 5 minutes!".data, "Time: ".data ++ tstr)]) :=
    runNotifications_phase _ _ _ _ _ _ (fun n hn k =>
      checkNotification_window5
        (hnext n (List.mem_append_right _ (List.mem_append_left _ hn)))
        (h5 n hn) k) hw5 hk0
  have hA1 : runNotifications pd c w1 (name ++ "-5min".data) =
      (name ++ "-1min".data,
       [(name ++ " prayer in 1 minute!".data, "Time: ".data ++ tstr)]) :=
    runNotifications_phase _ _ _ _ _ _ (fun n hn k =>
      checkNotification_window1
        (hnext n (List.mem_append_right _ (List.mem_append_right _ hn)))
        (h1 n hn) k) hw1 hkeys
  have hApost : runNotifications pd c post (name ++ "-1min".data) =
      (name ++ "-1min".data, []) :=
    runNotifications_noop _ _ _ _ (fun n hn =>
      checkNotification_far (hpost n hn) _)
  rw [runNotifications_append, hApre, runNotifications_append, hA5,
    runNotifications_append, hA1, hApost]
  simp

/-! ### The two resolvers never agree on a prayer -/

theorem nextPrev_names_differ {t : PrayerTimings} {c : CalCtx} {now : Int}
    (hv : validTimings t = true) {r1 r2 : ResolvedReference}
    (h1 : nextPrayer (some t) c now = some r1)
    (h2 : previousPrayer (some t) c now = some r2) :
    ¬(r1.name = r2.name) := by
  cases hscanN : nextPrayerScan (timingsList t) c now with
  | some rn =>
    have e1 : r1 = rn := by
      simp only [nextPrayer, hscanN] at h1
      exact (Option.some.inj h1).symm
    cases hscanP : previousPrayerScan (timingsList t) c now none with
    | some rp =>
      have e2 : r2 = rp := by
        simp only [previousPrayer, hscanP] at h2
        exact (Option.some.inj h2).symm
      obtain ⟨pn, hpn, hrn, hgt⟩ := nextPrayerScan_some_facts hscanN
      rcases previousPrayerScan_mem _ _ _ _ _ hscanP with hacc | ⟨pp, hpp, hrp, hle⟩
      · exact absurd hacc (by simp)
      intro hname
      rw [e1, e2, hrn, hrp] at hname
      have hname2 : pn.1 = pp.1 := hname
      have hpn2 : (pn.1, pn.2) ∈ timingsList t := by simpa using hpn
      have hpp2 : (pn.1, pp.2) ∈ timingsList t := by rw [hname2]; simpa using hpp
      have hss : pn.2 = pp.2 := timingsList_same_name hpn2 hpp2
      rw [← hss] at hle
      obtain ⟨x, hx, hlt⟩ := (jsGt_eq_true_iff _ _).mp hgt
      obtain ⟨y, hy, hley⟩ := (jsLe_eq_true_iff _ _).mp hle
      rw [hx] at hy
      injection hy with hy
      omega
    | none =>
      have e2 : r2 = ⟨"Isha".data,
          jsSetDate (prayerTimeToDate t.Isha c) c c.yesterdayDay, t.Isha⟩ := by
        simp only [previousPrayer, hscanP] at h2
        exact (Option.some.inj h2).symm
      have hleF : jsLe (prayerTimeToDate t.Fajr c) now = false := by
        have hscanP2 := hscanP
        simp only [timingsList] at hscanP2
        exact previousPrayerScan_none_head hscanP2
      have hgtF : jsGt (prayerTimeToDate t.Fajr c) now = true := by
        obtain ⟨v, hvp, _, _⟩ :=
          valid_prayerTimeToDate c (validTimings_mem hv (fajr_mem t))
        rw [hvp] at hleF ⊢
        exact jsGt_of_not_jsLe hleF
      have hscanN2 : nextPrayerScan (timingsList t) c now =
          some ⟨"Fajr".data, prayerTimeToDate t.Fajr c, t.Fajr⟩ := by
        simp only [timingsList, nextPrayerScan, hgtF, if_pos]
      rw [hscanN2] at hscanN
      have e1b : rn = ⟨"Fajr".data, prayerTimeToDate t.Fajr c, t.Fajr⟩ :=
        (Option.some.inj hscanN).symm
      rw [e1, e2, e1b]
      intro hcontra
      have hcontra2 : ("Fajr".data : JStr) = "Isha".data := hcontra
      exact absurd hcontra2 (by decide)
  | none =>
    have e1 : r1 = ⟨"Fajr".data,
        jsSetDate (prayerTimeToDate t.Fajr c) c c.tomorrowDay, t.Fajr⟩ := by
      simp only [nextPrayer, hscanN] at h1
      exact (Option.some.inj h1).symm
    have hallGt := nextPrayerScan_none_facts hscanN
    have hallLe : ∀ p ∈ timingsList t, jsLe (prayerTimeToDate p.2 c) now = true :=
      fun p hp => valid_jsLe_of_not_jsGt hv hp (hallGt p hp)
    have hscanP : previousPrayerScan (timingsList t) c now none =
        some ⟨"Isha".data, prayerTimeToDate t.Isha c, t.Isha⟩ := by
      rw [previousPrayerScan_all_le _ _ _ hallLe (timingsList_ne_nil t) none]
      rfl
    have e2 : r2 = ⟨"Isha".data, prayerTimeToDate t.Isha c, t.Isha⟩ := by
      simp only [previousPrayer, hscanP] at h2
      exact (Option.some.inj h2).symm
    rw [e1, e2]
    intro hcontra
    have hcontra2 : ("Fajr".data : JStr) = "Isha".data := hcontra
    exact absurd hcontra2 (by decide)

/-- At the exact instant of a schedule entry (strictly increasing valid
schedule), the previous-prayer resolver reports exactly that entry. -/
theorem previousPrayer_at_instant {t : PrayerTimings} {c : CalCtx} {now : Int}
    (hs : sortedLtB (instantsOf t c) = true) {p : JStr × JStr}
    (hp : p ∈ timingsList t) {x : Int} (hx : prayerTimeToDate p.2 c = some x)
    (hnow : now = x) :
    previousPrayer (some t) c now = some ⟨p.1, prayerTimeToDate p.2 c, p.2⟩ := by
  subst hnow
  obtain ⟨l1, l2, hsplit⟩ := List.append_of_mem hp
  have hsLe : sortedLeB ((timingsList t).map
      (fun q => prayerTimeToDate q.2 c)) = true := sortedLeB_of_sortedLtB hs
  have hs2 : sortedLtB (l1.map (fun q => prayerTimeToDate q.2 c) ++
      prayerTimeToDate p.2 c :: l2.map (fun q => prayerTimeToDate q.2 c)) =
      true := by
    have : instantsOf t c = l1.map (fun q => prayerTimeToDate q.2 c) ++
        prayerTimeToDate p.2 c :: l2.map (fun q => prayerTimeToDate q.2 c) := by
      rw [instantsOf, hsplit]
      simp
    rwa [this] at hs
  obtain ⟨xv, hxv, hlt1, hlt2⟩ := sortedLtB_split hs2
  rw [hx] at hxv
  injection hxv with hxv
  subst hxv
  have hfil : (timingsList t).filter
      (fun q => jsLe (prayerTimeToDate q.2 c) now) = l1 ++ [p] := by
    rw [hsplit, List.filter_append]
    have hf1 : l1.filter (fun q => jsLe (prayerTimeToDate q.2 c) now) = l1 := by
      rw [List.filter_eq_self]
      intro q hq
      obtain ⟨y, hy, hylt⟩ := hlt1 _
        (List.mem_map_of_mem (fun q => prayerTimeToDate q.2 c) hq)
      rw [hy]
      simp only [jsLe, decide_eq_true_eq]
      omega
    have hf2 : (p :: l2).filter
        (fun q => jsLe (prayerTimeToDate q.2 c) now) = [p] := by
      rw [@List.filter_cons_of_pos _ (fun q => jsLe (prayerTimeToDate q.2 c) now)
        p l2 (by show jsLe (prayerTimeToDate p.2 c) now = true
                 rw [hx]; simp [jsLe])]
      have : l2.filter (fun q => jsLe (prayerTimeToDate q.2 c) now) = [] := by
        rw [List.filter_eq_nil_iff]
        intro q hq
        obtain ⟨y, hy, hylt⟩ := hlt2 _
          (List.mem_map_of_mem (fun q => prayerTimeToDate q.2 c) hq)
        rw [hy]
        simp only [jsLe, Bool.not_eq_true, decide_eq_false_iff_not]
        omega
      rw [this]
    rw [hf1, hf2]
  have hscan := previousPrayerScan_filter (timingsList t) c now hsLe none
  rw [hfil, List.getLast?_concat] at hscan
  have hscan2 : previousPrayerScan (timingsList t) c now none =
      some ⟨p.1, prayerTimeToDate p.2 c, p.2⟩ := hscan
  simp only [previousPrayer, hscan2]

/-! ### Claim theorems -/

/-- Claim C1 (amended): on a valid six-entry schedule with `now` inside
today, `nextPrayer` returns exactly one reference, equal to the spec's
`findNext` (first entry in the fixed order whose today-instant is strictly
greater than `now`, else Fajr reconstructed on the following calendar day),
and that reference's instant is strictly greater than `now` — provided
today is not the last day of the month.  On the last day of the month the
`setDate(tomorrow.getDate())` fallback lands on day 1 of the *current*
month, in the past (see the counterexample). -/
theorem nextPrayer_resolves_first_future (t : PrayerTimings) (c : CalCtx)
    (now : Int) (hv : validTimings t = true) (hday : nowInDay c now)
    (hnotEnd : c.dayOfMonth < c.daysInMonth) :
    nextPrayer (some t) c now = some (specNext t c now) ∧
    ∃ x, (specNext t c now).time = some x ∧ now < x := by
  obtain ⟨hday1, hday2⟩ := hday
  cases hf : (timingsList t).find?
      (fun p => jsGt (prayerTimeToDate p.2 c) now) with
  | some p =>
    have hscan : nextPrayerScan (timingsList t) c now =
        some ⟨p.1, prayerTimeToDate p.2 c, p.2⟩ := by
      rw [nextPrayerScan_eq_find, hf]; rfl
    have hL : nextPrayer (some t) c now =
        some ⟨p.1, prayerTimeToDate p.2 c, p.2⟩ := by
      simp only [nextPrayer, hscan]
    have hR : specNext t c now = ⟨p.1, prayerTimeToDate p.2 c, p.2⟩ := by
      unfold specNext; rw [hf]
    have hpred := List.find?_some hf
    have hpred2 : jsGt (prayerTimeToDate p.2 c) now = true := hpred
    obtain ⟨x, hx, hlt⟩ := (jsGt_eq_true_iff _ _).mp hpred2
    exact ⟨by rw [hL, hR], x, by rw [hR]; exact hx, hlt⟩
  | none =>
    have hscan : nextPrayerScan (timingsList t) c now = none := by
      rw [nextPrayerScan_eq_find, hf]; rfl
    obtain ⟨v, hvp0, hv1, hv2⟩ :=
      valid_prayerTimeToDate c (validTimings_mem hv (fajr_mem t))
    have hvp : prayerTimeToDate t.Fajr c = some v := hvp0
    have hL : nextPrayer (some t) c now =
        some ⟨"Fajr".data,
          jsSetDate (prayerTimeToDate t.Fajr c) c c.tomorrowDay, t.Fajr⟩ := by
      simp only [nextPrayer, hscan]
    have hR : specNext t c now =
        ⟨"Fajr".data, (prayerTimeToDate t.Fajr c).map (fun x => x + dayMs),
         t.Fajr⟩ := by
      unfold specNext; rw [hf]
    have htime : jsSetDate (prayerTimeToDate t.Fajr c) c c.tomorrowDay =
        (prayerTimeToDate t.Fajr c).map (fun x => x + dayMs) := by
      rw [jsSetDate, hvp]
      simp only [Option.map_some']
      rw [CalCtx.tomorrowDay, if_pos hnotEnd]
      congr 1
      simp only [CalCtx.todayMidnight, dayMs]
      omega
    have htime2 : (specNext t c now).time = some (v + dayMs) := by
      rw [hR]
      show (prayerTimeToDate t.Fajr c).map (fun x => x + dayMs) = _
      rw [hvp]
      rfl
    refine ⟨by rw [hL, hR, htime], v + dayMs, htime2, ?_⟩
    omega

/-- Claim C1, counterexample to the claim as stated: on the last day of a
31-day month (schedule of the spec's §8 scenario, `now` = 21:00, after
Isha), the resolver returns Fajr at 05:00 on day **1 of the same month** —
an instant in the past — instead of the following calendar day's Fajr, so
the guarantee "instant strictly greater than `now`" fails. -/
theorem nextPrayer_monthEnd_counterexample :
    nextPrayer (some sampleTimings) monthEndCtx 2667600000 =
      some ⟨"Fajr".data, some 18000000, "05:00".data⟩ ∧
    validTimings sampleTimings = true ∧ nowInDay monthEndCtx 2667600000 ∧
    (18000000 : Int) < 2667600000 := by
  refine ⟨by decide, by decide, by decide, by decide⟩

/-- Claim C1, witness: mid-month, `now` = 18:26 of the §8 scenario. -/
theorem nextPrayer_resolves_first_future_witness :
    nextPrayer (some sampleTimings) sampleCtx 1275960000 =
      some (specNext sampleTimings sampleCtx 1275960000) ∧
    ∃ x, (specNext sampleTimings sampleCtx 1275960000).time = some x ∧
      1275960000 < x :=
  nextPrayer_resolves_first_future sampleTimings sampleCtx 1275960000
    (by decide) (by decide) (by decide)

/-- Claim C2 (amended): on a valid six-entry schedule whose instants are
non-decreasing, with `now` inside today, `previousPrayer` returns exactly
one reference, equal to the spec's `findPrevious` (last entry whose
today-instant is `≤ now`, scanning forward and stopping at the first
instant exceeding `now`; else Isha reconstructed on the previous calendar
day), and that reference's instant is `≤ now` — provided today is not the
first day of the month.  On the first day of the month the
`setDate(yesterday.getDate())` fallback lands at the **end of the current
month**, in the future (see the counterexample). -/
theorem previousPrayer_resolves_last_past (t : PrayerTimings) (c : CalCtx)
    (now : Int) (hv : validTimings t = true)
    (hs : sortedLeB (instantsOf t c) = true) (hday : nowInDay c now)
    (hnotStart : 1 < c.dayOfMonth) :
    previousPrayer (some t) c now = some (specPrevious t c now) ∧
    ∃ x, (specPrevious t c now).time = some x ∧ x ≤ now := by
  obtain ⟨hday1, hday2⟩ := hday
  have hscan := previousPrayerScan_filter (timingsList t) c now hs none
  cases hfl : ((timingsList t).filter
      (fun p => jsLe (prayerTimeToDate p.2 c) now)).getLast? with
  | some q =>
    rw [hfl] at hscan
    have hscan2 : previousPrayerScan (timingsList t) c now none =
        some ⟨q.1, prayerTimeToDate q.2 c, q.2⟩ := hscan
    have hL : previousPrayer (some t) c now =
        some ⟨q.1, prayerTimeToDate q.2 c, q.2⟩ := by
      simp only [previousPrayer, hscan2]
    have hR : specPrevious t c now = ⟨q.1, prayerTimeToDate q.2 c, q.2⟩ := by
      unfold specPrevious; rw [hfl]
    have hqle : jsLe (prayerTimeToDate q.2 c) now = true := by
      have := (List.mem_filter.mp (List.mem_of_getLast?_eq_some hfl)).2
      simpa using this
    obtain ⟨x, hx, hle⟩ := (jsLe_eq_true_iff _ _).mp hqle
    exact ⟨by rw [hL, hR], x, by rw [hR]; exact hx, hle⟩
  | none =>
    rw [hfl] at hscan
    have hscan2 : previousPrayerScan (timingsList t) c now none = none := hscan
    obtain ⟨v, hvp0, hv1, hv2⟩ :=
      valid_prayerTimeToDate c (validTimings_mem hv (isha_mem t))
    have hvp : prayerTimeToDate t.Isha c = some v := hvp0
    have hL : previousPrayer (some t) c now =
        some ⟨"Isha".data,
          jsSetDate (prayerTimeToDate t.Isha c) c c.yesterdayDay, t.Isha⟩ := by
      simp only [previousPrayer, hscan2]
    have hR : specPrevious t c now =
        ⟨"Isha".data, (prayerTimeToDate t.Isha c).map (fun x => x - dayMs),
         t.Isha⟩ := by
      unfold specPrevious; rw [hfl]
    have htime : jsSetDate (prayerTimeToDate t.Isha c) c c.yesterdayDay =
        (prayerTimeToDate t.Isha c).map (fun x => x - dayMs) := by
      rw [jsSetDate, hvp]
      simp only [Option.map_some']
      rw [CalCtx.yesterdayDay, if_pos hnotStart]
      congr 1
      simp only [CalCtx.todayMidnight, dayMs]
      omega
    have htime2 : (specPrevious t c now).time = some (v - dayMs) := by
      rw [hR]
      show (prayerTimeToDate t.Isha c).map (fun x => x - dayMs) = _
      rw [hvp]
      rfl
    refine ⟨by rw [hL, hR, htime], v - dayMs, htime2, ?_⟩
    omega

/-- Claim C2, counterexample to the claim as stated: on the first day of a
month following a 31-day month (§8 schedule, `now` = 04:00, before Fajr),
the resolver returns Isha at 20:00 of day 31 **of the current month** — an
instant a month in the future — instead of yesterday's Isha, so the
guarantee "instant less than or equal to `now`" fails. -/
theorem previousPrayer_monthStart_counterexample :
    previousPrayer (some sampleTimings) monthStartCtx 14400000 =
      some ⟨"Isha".data, some 2664000000, "20:00".data⟩ ∧
    validTimings sampleTimings = true ∧ nowInDay monthStartCtx 14400000 ∧
    (14400000 : Int) < 2664000000 := by
  refine ⟨by decide, by decide, by decide, by decide⟩

/-- Claim C2, witness: mid-month, `now` = 18:26 of the §8 scenario
(previous = Asr@15:45). -/
theorem previousPrayer_resolves_last_past_witness :
    previousPrayer (some sampleTimings) sampleCtx 1275960000 =
      some (specPrevious sampleTimings sampleCtx 1275960000) ∧
    ∃ x, (specPrevious sampleTimings sampleCtx 1275960000).time = some x ∧
      x ≤ 1275960000 :=
  previousPrayer_resolves_last_past sampleTimings sampleCtx 1275960000
    (by decide) (by decide) (by decide) (by decide)

/-- Claim C3 (amended): the two duration computations are never both
undefined; the undefined one is determined by the sign of `target - now`
(`remainingUntil` is undefined exactly when `target < now`, `elapsedSince`
exactly when `now < target`), but at `target = now` **both** are defined
(both equal to the zero duration), contrary to the claim's "exactly one". -/
theorem durations_sign_partition (target now : Int) :
    (remainingUntil target now = none ↔ target < now) ∧
    (elapsedSince target now = none ↔ now < target) := by
  constructor
  · rw [remainingUntil]
    split <;> simp <;> omega
  · rw [elapsedSince]
    split <;> simp <;> omega

/-- Claim C3, counterexample to the claim as stated: at `target = now` both
duration computations are defined (neither is "not applicable"). -/
theorem durations_both_defined_at_equal :
    remainingUntil 1276200000 1276200000 = some (durationOf 0) ∧
    elapsedSince 1276200000 1276200000 = some (durationOf 0) :=
  ⟨rfl, rfl⟩

/-- Claim C4 (amended): the conversion performs no validation and never
raises a parse error.  Any time string whose two `:`-separated segments are
unsigned decimal numerals — including out-of-range ones such as hours
24–99 — produces an instant `todayMidnight + h*3600000 + m*60000`
(`setHours` rolls it over into an adjacent day); a segment that is not
numeric merely yields an invalid date (no instant), still without error. -/
theorem prayerTimeToDate_no_validation :
    (∀ (c : CalCtx) (h m : Nat), h ≤ 99 → m ≤ 99 →
      prayerTimeToDate (twoDigits h ++ ':' :: twoDigits m) c =
        some (c.todayMidnight + (h : Int) * hourMs + (m : Int) * minuteMs)) ∧
    (∀ c : CalCtx, prayerTimeToDate "aa:bb".data c = none) := by
  constructor
  · intro c h m hh hm
    unfold prayerTimeToDate
    rw [parseHM_twoDigits h m hh hm]
  · intro c
    rfl

/-- Claim C4, counterexample to the claim as stated: `"25:00"` is not a
valid `HH:MM` time (hours 0–23), yet the conversion silently produces the
instant 01:00 of the *next* day instead of failing. -/
theorem prayerTimeToDate_out_of_range_counterexample :
    validEntry "25:00".data = false ∧
    prayerTimeToDate "25:00".data sampleCtx = some 1299600000 := by
  refine ⟨by decide, by decide⟩

/-- Claim C4, witness: hours 25 (out of range) with minutes 00. -/
theorem prayerTimeToDate_no_validation_witness :
    prayerTimeToDate (twoDigits 25 ++ ':' :: twoDigits 0) sampleCtx =
      some (sampleCtx.todayMidnight + ((25 : Nat) : Int) * hourMs +
        ((0 : Nat) : Int) * minuteMs) :=
  prayerTimeToDate_no_validation.1 sampleCtx 25 0 (by decide) (by decide)

/-- Claim C9: without schedule data every derived value reports "not
applicable" and the notification evaluation emits nothing, leaving the
last-fired key unchanged. -/
theorem no_schedule_all_not_applicable (c : CalCtx) (now : Int) (k : JStr) :
    nextPrayer none c now = none ∧ previousPrayer none c now = none ∧
    timeRemaining none c now = none ∧ timePassed none c now = none ∧
    checkNotification none c now k = (k, none) :=
  ⟨rfl, rfl, rfl, rfl, rfl⟩

/-- Claim C5 (amended): an emission occurs iff the computed threshold key
differs from the stored last-fired key, which is then updated; consequently
a monotone run crossing the 5-minute and 1-minute windows of one prayer and
continuing past the instant produces exactly TWO emissions, under the two
distinct keys `{name}-5min` and `{name}-1min`, regardless of how many ticks
fall inside each window.  The `{name}-now` (0 ms) milestone can never fire:
a defined remaining duration is always strictly positive, because at the
prayer instant itself the strict `>` scan already reports the following
prayer, and the month-end fallback instant lies in the past (no duration). -/
theorem notification_dedup_two_emissions :
    (∀ (pd : Option PrayerTimings) (c : CalCtx) (name tstr : JStr)
       (target : Int) (k0 : JStr) (pre w5 w1 post : List Int),
      (∀ n ∈ pre ++ (w5 ++ w1),
        nextPrayer pd c n = some ⟨name, some target, tstr⟩) →
      (∀ n ∈ pre, 300000 < target - n) →
      (∀ n ∈ w5, 60000 < target - n ∧ target - n ≤ 300000) →
      (∀ n ∈ w1, 0 < target - n ∧ target - n ≤ 60000) →
      (∀ n ∈ post, farTick pd c n = true) →
      w5 ≠ [] → w1 ≠ [] → ¬(k0 = name ++ "-5min".data) →
      runNotifications pd c (pre ++ (w5 ++ (w1 ++ post))) k0 =
        (name ++ "-1min".data,
         [(name ++ " prayer in 5 minutes!".data, "Time: ".data ++ tstr),
          (name ++ " prayer in 1 minute!".data, "Time: ".data ++ tstr)]) ∧
      ¬(name ++ "-5min".data = name ++ "-1min".data)) ∧
    (∀ (t : PrayerTimings) (c : CalCtx) (now : Int) (d : Duration),
      validTimings t = true → CalCtx.ok c = true → nowInDay c now →
      timeRemaining (some t) c now = some d → 0 < d.totalMs) := by
  constructor
  · intro pd c name tstr target k0 pre w5 w1 post hnext hpre h5 h1 hpost
      hw5 hw1 hk0
    refine ⟨runNotifications_crossing hnext hpre h5 h1 hpost hw5 hw1 hk0, ?_⟩
    intro hcontra
    exact absurd (List.append_cancel_left hcontra) (by decide)
  · intro t c now d hv hok hday h
    exact timeRemaining_pos hv hok hday h

/-- Claim C5, counterexample to "exactly three emissions": a strictly
increasing run of ticks crossing the 5-minute, 1-minute AND 0 boundaries of
Maqhrib@18:30 (target instant 1276200000) produces exactly TWO emissions:
once `now` passes the instant, the resolver reports the following prayer,
so the `-now` notification never fires. -/
theorem notification_run_counterexample :
    (1275800000 : Int) < 1275950000 ∧ (1275950000 : Int) < 1276170000 ∧
    (1276170000 : Int) < 1276201000 ∧
    (1275800000 : Int) < 1276200000 - 300000 ∧
    (1276200000 : Int) - 300000 < 1275950000 ∧
    (1275950000 : Int) < 1276200000 - 60000 ∧
    (1276200000 : Int) - 60000 < 1276170000 ∧
    (1276170000 : Int) < 1276200000 ∧ (1276200000 : Int) < 1276201000 ∧
    (runNotifications (some sampleTimings) sampleCtx
      [1275800000, 1275950000, 1276170000, 1276201000] []).2.length = 2 := by
  refine ⟨by decide, by decide, by decide, by decide, by decide, by decide,
    by decide, by decide, by decide, by decide⟩

/-- Claim C5, witness: one pre tick, two 5-minute-window ticks, one
1-minute-window tick, one tick past the instant. -/
theorem notification_dedup_two_emissions_witness :
    (runNotifications (some sampleTimings) sampleCtx
        ([1275800000] ++ ([1275950000, 1275960000] ++
          ([1276170000] ++ [1276201000]))) [] =
      ("Maqhrib".data ++ "-1min".data,
       [("Maqhrib".data ++ " prayer in 5 minutes!".data,
         "Time: ".data ++ "18:30".data),
        ("Maqhrib".data ++ " prayer in 1 minute!".data,
         "Time: ".data ++ "18:30".data)]) ∧
      ¬("Maqhrib".data ++ "-5min".data = "Maqhrib".data ++ "-1min".data)) ∧
    0 < (durationOf 250000).totalMs :=
  ⟨notification_dedup_two_emissions.1 (some sampleTimings) sampleCtx
      "Maqhrib".data "18:30".data 1276200000 [] [1275800000]
      [1275950000, 1275960000] [1276170000] [1276201000]
      (by decide) (by decide) (by decide) (by decide) (by decide)
      (by decide) (by decide) (by decide),
   notification_dedup_two_emissions.2 sampleTimings sampleCtx 1275950000
      (durationOf 250000) (by decide) (by decide) (by decide) (by decide)⟩

/-- Claim C6: whenever the remaining duration is defined and a next prayer
is resolved, the stored key after the check equals the spec's threshold
mapping of the remaining milliseconds (§4.5: `≤ 0` ↦ now, else `≤ 60000` ↦
1min, else `≤ 300000` ↦ 5min, else no key and the key is left unchanged),
and no emission occurs iff no key is computed or it equals the stored one. -/
theorem notification_key_matches_spec (pd : Option PrayerTimings) (c : CalCtx)
    (now : Int) (k : JStr) (d : Duration) (r : ResolvedReference)
    (hrem : timeRemaining pd c now = some d)
    (hnp : nextPrayer pd c now = some r) :
    (checkNotification pd c now k).1 = (specKeyOf r.name d.totalMs).getD k ∧
    ((checkNotification pd c now k).2 = none ↔
      specKeyOf r.name d.totalMs = none ∨
      specKeyOf r.name d.totalMs = some k) := by
  rw [checkNotification_eq hrem hnp k]
  unfold specKeyOf
  by_cases h0 : d.totalMs ≤ 0
  · rw [if_neg (by omega), if_neg (by omega), if_pos h0, if_pos h0]
    constructor
    · split_ifs with hk
      · rfl
      · simp only [ne_eq, not_not] at hk
        rw [hk]
        rfl
    · split_ifs with hk
      · simp only [ne_eq, not_not] at hk ⊢
        simp [hk, eq_comm]
      · simp only [ne_eq, not_not] at hk
        simp [hk]
  · by_cases h1 : d.totalMs ≤ 60000
    · rw [if_neg (by omega), if_pos (by omega : d.totalMs ≤ 1 * 60 * 1000 ∧
          0 < d.totalMs), if_neg h0, if_pos h1]
      constructor
      · split_ifs with hk
        · rfl
        · simp only [ne_eq, not_not] at hk
          rw [hk]
          rfl
      · split_ifs with hk
        · simp only [ne_eq, not_not] at hk ⊢
          simp [hk, eq_comm]
        · simp only [ne_eq, not_not] at hk
          simp [hk]
    · by_cases h5 : d.totalMs ≤ 300000
      · rw [if_pos (by omega : d.totalMs ≤ 5 * 60 * 1000 ∧
            1 * 60 * 1000 < d.totalMs), if_neg h0, if_neg h1, if_pos h5]
        constructor
        · split_ifs with hk
          · rfl
          · simp only [ne_eq, not_not] at hk
            rw [hk]
            rfl
        · split_ifs with hk
          · simp only [ne_eq, not_not] at hk ⊢
            simp [hk, eq_comm]
          · simp only [ne_eq, not_not] at hk
            simp [hk]
      · rw [if_neg (by omega), if_neg (by omega), if_neg h0, if_neg h0,
          if_neg h1, if_neg h5]
        simp

/-- Claim C6, witness: 250 s before Maqhrib the computed key is the 5-minute
one under both the code and the spec mapping. -/
theorem notification_key_matches_spec_witness :
    (checkNotification (some sampleTimings) sampleCtx 1275950000 []).1 =
      (specKeyOf "Maqhrib".data (durationOf 250000).totalMs).getD [] ∧
    ((checkNotification (some sampleTimings) sampleCtx 1275950000 []).2 =
        none ↔
      specKeyOf "Maqhrib".data (durationOf 250000).totalMs = none ∨
      specKeyOf "Maqhrib".data (durationOf 250000).totalMs = some []) :=
  notification_key_matches_spec (some sampleTimings) sampleCtx 1275950000 []
    (durationOf 250000) ⟨"Maqhrib".data, some 1276200000, "18:30".data⟩
    (by decide) (by decide)

/-- Claim C7: when the user has pinned the mode, the selector returns the
last toggled value and ignores the elapsed computation; in Auto, with a
defined elapsed duration, it selects Next exactly when `totalMs` strictly
exceeds 35 minutes (2 100 000 ms). -/
theorem mode_selector_threshold :
    (∀ (sn : Bool) (pd : Option PrayerTimings) (c : CalCtx) (now : Int),
      shouldShowNextPrayer true sn pd c now = sn) ∧
    (∀ (sn : Bool) (pd : Option PrayerTimings) (c : CalCtx) (now : Int)
       (d : Duration), timePassed pd c now = some d →
      shouldShowNextPrayer false sn pd c now =
        decide (35 * 60 * 1000 < d.totalMs)) := by
  constructor
  · intro sn pd c now
    rfl
  · intro sn pd c now d h
    unfold shouldShowNextPrayer
    rw [if_neg (by simp), h]

/-- Claim C7, witness: elapsed 2 099 999 ms selects Previous, 2 100 001 ms
selects Next (Maqhrib at 1276200000 of the §8 scenario). -/
theorem mode_selector_threshold_witness :
    shouldShowNextPrayer false true (some sampleTimings) sampleCtx
      1278299999 = false ∧
    shouldShowNextPrayer false true (some sampleTimings) sampleCtx
      1278300001 = true := by
  constructor
  · have h := mode_selector_threshold.2 true (some sampleTimings) sampleCtx
      1278299999 (durationOf 2099999) (by decide)
    rw [h]
    decide
  · have h := mode_selector_threshold.2 true (some sampleTimings) sampleCtx
      1278300001 (durationOf 2100001) (by decide)
    rw [h]
    decide

/-- Claim C8: on a valid schedule the two resolvers never report the same
prayer — even at a boundary instant, where (for strictly increasing
schedules) the `≤` tie-break assigns the prayer to `previousPrayer` while
the strict `>` of `nextPrayer` passes over it. -/
theorem next_previous_disjoint :
    (∀ (t : PrayerTimings) (c : CalCtx) (now : Int)
       (r1 r2 : ResolvedReference), validTimings t = true →
      nextPrayer (some t) c now = some r1 →
      previousPrayer (some t) c now = some r2 → ¬(r1.name = r2.name)) ∧
    (∀ (t : PrayerTimings) (c : CalCtx) (now : Int) (p : JStr × JStr)
       (x : Int), validTimings t = true →
      sortedLtB (instantsOf t c) = true → p ∈ timingsList t →
      prayerTimeToDate p.2 c = some x → now = x →
      previousPrayer (some t) c now =
        some ⟨p.1, prayerTimeToDate p.2 c, p.2⟩ ∧
      ∀ r1, nextPrayer (some t) c now = some r1 → ¬(r1.name = p.1)) := by
  constructor
  · intro t c now r1 r2 hv h1 h2
    exact nextPrev_names_differ hv h1 h2
  · intro t c now p x hv hs hp hx hnow
    have hprev := previousPrayer_at_instant hs hp hx hnow
    refine ⟨hprev, ?_⟩
    intro r1 h1 hcontra
    exact absurd hcontra (nextPrev_names_differ hv h1 hprev)

/-- Claim C8, witness: at exactly Isha's instant (20:00, §8 scenario),
`previousPrayer` reports Isha and `nextPrayer` does not. -/
theorem next_previous_disjoint_witness :
    previousPrayer (some sampleTimings) sampleCtx 1281600000 =
      some ⟨("Isha".data, "20:00".data).1,
        prayerTimeToDate ("Isha".data, "20:00".data).2 sampleCtx,
        ("Isha".data, "20:00".data).2⟩ ∧
    ∀ r1, nextPrayer (some sampleTimings) sampleCtx 1281600000 = some r1 →
      ¬(r1.name = ("Isha".data, "20:00".data).1) :=
  next_previous_disjoint.2 sampleTimings sampleCtx 1281600000
    ("Isha".data, "20:00".data) 1281600000 (by decide) (by decide)
    (by decide) (by decide) rfl

/-- Claim C10: the toggle flips a shown-mode boolean initialised to Next
(true) and independent of the automatic selection: the first toggle of a
fresh process always pins the display to Previous (in particular, if Auto
was already showing Previous the displayed mode is unchanged), and after
`n` toggles the pinned mode is Next exactly when `n` is even. -/
theorem toggle_pin_parity :
    (togglePrayerMode initialViewState = ⟨true, false⟩) ∧
    (∀ (pd : Option PrayerTimings) (c : CalCtx) (now : Int),
      shouldShowNextPrayer false true pd c now = false →
      shouldShowNextPrayer (togglePrayerMode initialViewState).isManualToggle
        (togglePrayerMode initialViewState).showNext pd c now = false) ∧
    (∀ n : Nat, (toggleN n initialViewState).showNext = decide (n % 2 = 0)) ∧
    (∀ n : Nat, 0 < n → (toggleN n initialViewState).isManualToggle = true) := by
  refine ⟨rfl, ?_, ?_, ?_⟩
  · intro pd c now _
    rfl
  · intro n
    induction n with
    | zero => rfl
    | succ n ih =>
      have hstep : (toggleN (n + 1) initialViewState).showNext =
          !(toggleN n initialViewState).showNext := rfl
      rw [hstep, ih]
      rcases Nat.mod_two_eq_zero_or_one n with h | h <;>
        simp [Nat.add_mod, h]
  · intro n hn
    cases n with
    | zero => exact absurd hn (by decide)
    | succ n => rfl

/-- Claim C10, witness: one minute after Maqhrib Auto shows Previous and the
first toggle (pinning to Previous) leaves the displayed mode unchanged;
after three toggles the mode is pinned. -/
theorem toggle_pin_parity_witness :
    shouldShowNextPrayer (togglePrayerMode initialViewState).isManualToggle
      (togglePrayerMode initialViewState).showNext (some sampleTimings)
      sampleCtx 1276260000 = false ∧
    (toggleN 3 initialViewState).isManualToggle = true :=
  ⟨toggle_pin_parity.2.1 (some sampleTimings) sampleCtx 1276260000 (by decide),
   toggle_pin_parity.2.2.2 3 (by decide)⟩

end PrayerApp
